import Mathlib

/-!
Verification of the stock-variance dashboard (`variance.py`) against its
natural-language specification.

The script is embedded shallowly: a spreadsheet cell is a `PVal` (a rational
number or a missing value `nan`, mirroring the NaN cells `pd.read_excel`
produces), a dataframe row is a `Row`, and each pipeline stage of the script
is a Lean function on lists of rows.  Row labels (`Row.idx`) model the
pandas `RangeIndex` assigned at load time.
-/

/-- A spreadsheet cell as pandas holds it: either a rational value or a
missing value (NaN).  `variance.py` never calls `fillna`, so missing values
survive loading and must be modelled explicitly. -/
inductive PVal where
  | num (q : ℚ)
  | nan
deriving DecidableEq

/-- Subtraction on cells; any operation on NaN yields NaN (pandas float
semantics). -/
def pvSub : PVal → PVal → PVal
  | PVal.num a, PVal.num b => PVal.num (a - b)
  | _, _ => PVal.nan

/-- Multiplication on cells; NaN propagates. -/
def pvMul : PVal → PVal → PVal
  | PVal.num a, PVal.num b => PVal.num (a * b)
  | _, _ => PVal.nan

/-- Absolute value on cells (`Series.abs`); NaN propagates. -/
def pvAbs : PVal → PVal
  | PVal.num a => PVal.num |a|
  | PVal.nan => PVal.nan

/-- Comparison used when sorting cells: numbers by their rational order,
with a missing value below every number.  Under the descending comparators
built from it, NaN keys therefore land at the end of every sorted listing,
matching the default `na_position` behaviour of `sort_values` (both for the
single-key top-30 sorts and within a category for the two-key remainder
sort). -/
def pvLeB : PVal → PVal → Bool
  | PVal.nan, _ => true
  | PVal.num _, PVal.nan => false
  | PVal.num a, PVal.num b => decide (a ≤ b)

/-- A row of the raw spreadsheet `stock_data.Xlsx` before `load_data` runs.
`diffStock` holds the preexisting `Diff Stock` column and is meaningful only
when the table declares that column present (`RawTable.hasDiff`). -/
structure RawRow where
  itemName : String
  itemNo : String
  barcode : String
  category : String
  bookStock : PVal
  physStock : PVal
  costPrice : PVal
  diffStock : PVal
deriving DecidableEq

/-- The raw spreadsheet: its rows plus which optional columns are present.
`hasDiff` models the line-14 check `if Diff Stock not in df.columns`;
`hasCategory` models whether the `Category` column exists (line 28 reads it
without a presence check). -/
structure RawTable where
  hasDiff : Bool
  hasCategory : Bool
  rows : List RawRow
deriving DecidableEq

/-- A row of the loaded dataframe returned by `load_data`: the raw columns
plus the derived `Diff Stock`, `Book Value`, `Phys Value`, `Diff Value`
columns.  `idx` is the pandas `RangeIndex` label of the row. -/
structure Row where
  idx : Nat
  itemName : String
  itemNo : String
  barcode : String
  category : String
  bookStock : PVal
  physStock : PVal
  costPrice : PVal
  diffStock : PVal
  bookValue : PVal
  physValue : PVal
  diffValue : PVal
deriving DecidableEq

/-- Loading one raw row (lines 14-20 of `variance.py`): `Diff Stock` is
computed as `Phys Stock - Book Stock` only when the column is absent from
the file, and the three value columns multiply a quantity by `Cost Price`. -/
def loadRow (hasDiff : Bool) (i : Nat) (r : RawRow) : Row :=
  let d := if hasDiff then r.diffStock else pvSub r.physStock r.bookStock
  { idx := i
    itemName := r.itemName
    itemNo := r.itemNo
    barcode := r.barcode
    category := r.category
    bookStock := r.bookStock
    physStock := r.physStock
    costPrice := r.costPrice
    diffStock := d
    bookValue := pvMul r.bookStock r.costPrice
    physValue := pvMul r.physStock r.costPrice
    diffValue := pvMul d r.costPrice }

/-- Loads the rows in order, labelling them with consecutive indices
(the pandas `RangeIndex`). -/
def loadRows (hasDiff : Bool) : Nat → List RawRow → List Row
  | _, [] => []
  | i, r :: rs => loadRow hasDiff i r :: loadRows hasDiff (i + 1) rs

/-- `load_data` (lines 9-22): reads the spreadsheet and adds the derived
columns.  Note there is no `fillna` call anywhere in the function. -/
def load_data (t : RawTable) : List Row :=
  loadRows t.hasDiff 0 t.rows

/-- First-occurrence-ordered distinct values, as `Series.unique` returns
them (line 28). -/
def uniqueFirst : List String → List String
  | [] => []
  | a :: as => a :: uniqueFirst (as.filter (fun b => decide (b ≠ a)))
termination_by l => l.length
decreasing_by
  simp only [List.length_cons]
  exact Nat.lt_succ_of_le (List.length_filter_le _ _)

/-- Line 28, `df[Category].unique().tolist()`: reading the `Category`
column of the loaded dataframe.  When the column is absent pandas raises a
`KeyError`, which aborts the script; no `Unknown` synthesis happens in
`variance.py`. -/
def categoriesE (t : RawTable) : Except String (List String) :=
  if t.hasCategory then
    Except.ok (uniqueFirst ((load_data t).map (fun r => r.category)))
  else
    Except.error "KeyError: Category"

/-- Lines 32-34: `filtered_df = df.copy()` followed by an exact-match
category filter, skipped when the `All` sentinel is selected. -/
def filtered_df (rows : List Row) (sel : String) : List Row :=
  if sel = "All" then rows
  else rows.filter (fun r => decide (r.category = sel))

/-- `Series.sum` with the default `skipna=True`: missing cells are skipped
and an all-missing or empty column sums to `0`. -/
def colSum (f : Row → PVal) (rows : List Row) : ℚ :=
  rows.foldr
    (fun r acc =>
      match f r with
      | PVal.num q => q + acc
      | PVal.nan => acc)
    0

/-- Line 37. -/
def total_book_stock (rows : List Row) : ℚ := colSum (fun r => r.bookStock) rows

/-- Line 39. -/
def total_diff_stock (rows : List Row) : ℚ := colSum (fun r => r.diffStock) rows

/-- Lines 45-47: the variance percentage, guarded against a zero
denominator. -/
def stock_variance_pct (rows : List Row) : ℚ :=
  if total_book_stock rows ≠ 0 then
    total_diff_stock rows / total_book_stock rows * 100
  else 0

/-- Claim C1: for every filtered table, the reported Stock Variance % is 0
when the summed Book Stock is 0, and equals
(summed Diff Stock / summed Book Stock) * 100 otherwise. -/
theorem C1_stock_variance_safe_div (rows : List Row) :
    (total_book_stock rows = 0 → stock_variance_pct rows = 0) ∧
    (total_book_stock rows ≠ 0 →
      stock_variance_pct rows =
        total_diff_stock rows / total_book_stock rows * 100) := by
  constructor
  · intro h
    simp [stock_variance_pct, h]
  · intro h
    simp [stock_variance_pct, h]

/-- Witness for C1 at a concrete one-row table. -/
theorem C1_stock_variance_safe_div_witness :
    total_book_stock [] = 0 ∧ stock_variance_pct [] = 0 :=
  ⟨by decide, (C1_stock_variance_safe_div []).1 (by decide)⟩

/-- The concrete three-row spreadsheet of the end-to-end scenario: keys
A, B, C, costs 10, 20, 30, book stock 5, 5, 5, physical stock 4, 6, 5.
The file carries no `Diff Stock` column. -/
def scenarioTable : RawTable :=
  { hasDiff := false
    hasCategory := true
    rows :=
      [ { itemName := "A", itemNo := "A", barcode := "A", category := "Food"
          bookStock := PVal.num 5, physStock := PVal.num 4
          costPrice := PVal.num 10, diffStock := PVal.num 0 }
      , { itemName := "B", itemNo := "B", barcode := "B", category := "Food"
          bookStock := PVal.num 5, physStock := PVal.num 6
          costPrice := PVal.num 20, diffStock := PVal.num 0 }
      , { itemName := "C", itemNo := "C", barcode := "C", category := "Food"
          bookStock := PVal.num 5, physStock := PVal.num 5
          costPrice := PVal.num 30, diffStock := PVal.num 0 } ] }

/-- Claim C9: on the three-row scenario table the pipeline yields
Diff Stock = [-1, 1, 0], Diff Value = [-10, 20, 0], and a Stock Variance %
of (0/15)*100 = 0.  (`variance.py` performs no join, so the scenario's
clause about an unmatched transaction key has no effect on the result.) -/
theorem C9_end_to_end :
    ((load_data scenarioTable).map (fun r => r.diffStock) =
      [PVal.num (-1), PVal.num 1, PVal.num 0]) ∧
    ((load_data scenarioTable).map (fun r => r.diffValue) =
      [PVal.num (-10), PVal.num 20, PVal.num 0]) ∧
    total_book_stock (filtered_df (load_data scenarioTable) "All") = 15 ∧
    total_diff_stock (filtered_df (load_data scenarioTable) "All") = 0 ∧
    stock_variance_pct (filtered_df (load_data scenarioTable) "All") = 0 ∧
    (0 / 15 : ℚ) * 100 = 0 := by
  refine ⟨?_, ?_, ?_, ?_, ?_, by norm_num⟩ <;>
    norm_num [stock_variance_pct, total_book_stock, total_diff_stock, colSum,
      filtered_df, load_data, loadRows, loadRow, pvSub, pvMul, scenarioTable]

/-- A raw table that already carries a `Diff Stock` column whose cell does
not equal Phys Stock - Book Stock. -/
def staleDiffTable : RawTable :=
  { hasDiff := true
    hasCategory := true
    rows :=
      [ { itemName := "A", itemNo := "A", barcode := "A", category := "Food"
          bookStock := PVal.num 5, physStock := PVal.num 4
          costPrice := PVal.num 10, diffStock := PVal.num 99 } ] }

/-- Counterexample to claim C4: when the spreadsheet already has a
`Diff Stock` column, `load_data` keeps it as-is (line 14 guards the
computation with `if Diff Stock not in df.columns`), so the loaded
Diff Stock can differ from Physical - Book. -/
theorem C4_counterexample :
    ((load_data staleDiffTable).map (fun r => r.diffStock) = [PVal.num 99]) ∧
    ((load_data staleDiffTable).map (fun r => pvSub r.physStock r.bookStock) =
      [PVal.num (-1)]) ∧
    PVal.num 99 ≠ PVal.num (-1) := by
  refine ⟨?_, ?_, ?_⟩ <;>
    norm_num [load_data, loadRows, loadRow, pvSub, staleDiffTable]

/-- Claim C4 as amended: `Diff Stock` equals Physical - Book only when the
input file lacks a `Diff Stock` column (a preexisting column is kept
as-is), while the three value columns always equal the corresponding
quantity times the unit cost, `Diff Value` using the possibly preexisting
`Diff Stock`. -/
theorem C4_derived_columns_amended (t : RawTable) (row : Row)
    (hmem : row ∈ load_data t) :
    (t.hasDiff = false → row.diffStock = pvSub row.physStock row.bookStock) ∧
    row.bookValue = pvMul row.bookStock row.costPrice ∧
    row.physValue = pvMul row.physStock row.costPrice ∧
    row.diffValue = pvMul row.diffStock row.costPrice := by
  have main : ∀ (hd : Bool) (i : Nat) (l : List RawRow),
      row ∈ loadRows hd i l →
      (hd = false → row.diffStock = pvSub row.physStock row.bookStock) ∧
      row.bookValue = pvMul row.bookStock row.costPrice ∧
      row.physValue = pvMul row.physStock row.costPrice ∧
      row.diffValue = pvMul row.diffStock row.costPrice := by
    intro hd i l
    induction l generalizing i with
    | nil => intro h; cases h
    | cons r rs ih =>
      intro h
      rcases List.mem_cons.mp h with h0 | h1
      · subst h0
        cases hd with
        | false => simp [loadRow]
        | true => simp [loadRow]
      · exact ih _ h1
  exact main t.hasDiff 0 t.rows hmem

/-- Witness for C4's amended theorem at a concrete loaded row. -/
theorem C4_derived_columns_amended_witness :
    (loadRow false 0 (scenarioTable.rows.get ⟨0, by decide⟩) ∈
      load_data scenarioTable) ∧
    scenarioTable.hasDiff = false ∧
    (loadRow false 0 (scenarioTable.rows.get ⟨0, by decide⟩)).diffStock =
      pvSub (loadRow false 0 (scenarioTable.rows.get ⟨0, by decide⟩)).physStock
        (loadRow false 0 (scenarioTable.rows.get ⟨0, by decide⟩)).bookStock :=
  ⟨by simp [load_data, loadRows, scenarioTable], by decide,
    (C4_derived_columns_amended scenarioTable _
      (by simp [load_data, loadRows, scenarioTable])).1 (by decide)⟩

/-- A raw table with a missing Book Stock cell. -/
def nanTable : RawTable :=
  { hasDiff := false
    hasCategory := true
    rows :=
      [ { itemName := "A", itemNo := "A", barcode := "A", category := "Food"
          bookStock := PVal.nan, physStock := PVal.num 2
          costPrice := PVal.num 3, diffStock := PVal.num 0 } ] }

/-- Counterexample to claim C6: `load_data` contains no `fillna` call, so a
missing Book Stock cell is still missing (not zero) in the loaded table. -/
theorem C6_counterexample :
    ((load_data nanTable).map (fun r => r.bookStock) = [PVal.nan]) ∧
    PVal.nan ≠ PVal.num 0 := by
  refine ⟨by decide, by decide⟩

/-- Claim C6 as amended: the loader does not replace missing values; the
stock and cost columns pass through `load_data` unchanged, so NaN cells
survive (downstream sums merely skip them). -/
theorem C6_loader_preserves_missing (t : RawTable) :
    (load_data t).map (fun r => r.bookStock) = t.rows.map (fun r => r.bookStock) ∧
    (load_data t).map (fun r => r.physStock) = t.rows.map (fun r => r.physStock) ∧
    (load_data t).map (fun r => r.costPrice) = t.rows.map (fun r => r.costPrice) := by
  have main : ∀ (hd : Bool) (i : Nat) (l : List RawRow),
      (loadRows hd i l).map (fun r => r.bookStock) = l.map (fun r => r.bookStock) ∧
      (loadRows hd i l).map (fun r => r.physStock) = l.map (fun r => r.physStock) ∧
      (loadRows hd i l).map (fun r => r.costPrice) = l.map (fun r => r.costPrice) := by
    intro hd i l
    induction l generalizing i with
    | nil => simp [loadRows]
    | cons r rs ih =>
      have h := ih (i + 1)
      simp only [loadRows, List.map_cons]
      exact ⟨by rw [h.1]; rfl, by rw [h.2.1]; rfl, by rw [h.2.2]; rfl⟩
  exact main t.hasDiff 0 t.rows

/-- Claim C7: the category filter keeps exactly the rows whose category
equals the selected value, is skipped when the `All` sentinel is selected,
and is idempotent. -/
theorem C7_category_filter (rows : List Row) (sel : String) :
    (∀ r, r ∈ filtered_df rows sel ↔
      r ∈ rows ∧ (sel ≠ "All" → r.category = sel)) ∧
    (sel = "All" → filtered_df rows sel = rows) ∧
    filtered_df (filtered_df rows sel) sel = filtered_df rows sel := by
  by_cases hall : sel = "All"
  · refine ⟨?_, fun _ => by simp [filtered_df, hall], by simp [filtered_df, hall]⟩
    intro r
    simp [filtered_df, hall]
  · refine ⟨?_, fun h => absurd h hall, ?_⟩
    · intro r
      simp only [filtered_df, if_neg hall, List.mem_filter, decide_eq_true_eq]
      constructor
      · exact fun h => ⟨h.1, fun _ => h.2⟩
      · exact fun h => ⟨h.1, h.2 hall⟩
    · simp only [filtered_df, if_neg hall, List.filter_filter]
      exact List.filter_congr (by intro r _; simp)

/-- Witness for C7 at the loaded scenario table with the Food category
selected. -/
theorem C7_category_filter_witness :
    ((load_data scenarioTable).get ⟨0, by decide⟩ ∈
        filtered_df (load_data scenarioTable) "Food" ↔
      (load_data scenarioTable).get ⟨0, by decide⟩ ∈ load_data scenarioTable ∧
        ("Food" ≠ "All" →
          ((load_data scenarioTable).get ⟨0, by decide⟩).category = "Food")) ∧
    filtered_df (filtered_df (load_data scenarioTable) "Food") "Food" =
      filtered_df (load_data scenarioTable) "Food" :=
  ⟨(C7_category_filter (load_data scenarioTable) "Food").1 _,
    (C7_category_filter (load_data scenarioTable) "Food").2.2⟩

/-- A raw table whose spreadsheet lacks the `Category` column. -/
def noCategoryTable : RawTable :=
  { hasDiff := false
    hasCategory := false
    rows :=
      [ { itemName := "A", itemNo := "A", barcode := "A", category := ""
          bookStock := PVal.num 1, physStock := PVal.num 1
          costPrice := PVal.num 1, diffStock := PVal.num 0 } ] }

/-- Counterexample to claim C8: `variance.py` reads `df[Category]` with no
presence check (line 28), so on a table lacking the category column the run
fails with a `KeyError` instead of synthesizing an `Unknown` category. -/
theorem C8_counterexample :
    categoriesE noCategoryTable = Except.error "KeyError: Category" := by
  rfl

/-- Claim C8 as amended: the script never synthesizes a category column;
reading the categories fails with a `KeyError` whenever the column is
absent, and succeeds with the distinct loaded categories whenever it is
present. -/
theorem C8_category_absent_amended (t : RawTable) :
    (t.hasCategory = false →
      categoriesE t = Except.error "KeyError: Category") ∧
    (t.hasCategory = true →
      categoriesE t =
        Except.ok (uniqueFirst ((load_data t).map (fun r => r.category)))) := by
  constructor
  · intro h
    simp [categoriesE, h]
  · intro h
    simp [categoriesE, h]

/-- Witness for C8's amended theorem at the concrete category-free table. -/
theorem C8_category_absent_amended_witness :
    noCategoryTable.hasCategory = false ∧
    categoriesE noCategoryTable = Except.error "KeyError: Category" :=
  ⟨by decide, (C8_category_absent_amended noCategoryTable).1 (by decide)⟩

/-- Modelled from the spec: a row of the reference table handed to the
Joiner.  The Joiner itself belongs to the sales dashboard, which is not in
`src/` (`variance.py` loads a single spreadsheet and performs no join); the
spec describes it as a left outer join on a shared string identifier. -/
structure RefRow where
  key : String
  refData : ℚ
deriving DecidableEq

/-- Modelled from the spec: a row of the transaction table handed to the
Joiner. -/
structure TxRow where
  key : String
  txData : ℚ
deriving DecidableEq

/-- Modelled from the spec: a joined row; unmatched transaction fields
default to zero. -/
structure JoinedRow where
  key : String
  refData : ℚ
  txData : ℚ
deriving DecidableEq

/-- Modelled from the spec: joining one reference row against the whole
transaction table — an unmatched reference row is kept once with zero-filled
transaction columns, and each matching transaction row produces one joined
row. -/
def joinOne (T : List TxRow) (r : RefRow) : List JoinedRow :=
  match T.filter (fun t => decide (t.key = r.key)) with
  | [] => [{ key := r.key, refData := r.refData, txData := 0 }]
  | ms => ms.map (fun t => { key := r.key, refData := r.refData, txData := t.txData })

/-- Modelled from the spec: the Joiner, a left outer join of the reference
table with the transaction table on the shared identifier. -/
def leftJoin (R : List RefRow) (T : List TxRow) : List JoinedRow :=
  (R.map (joinOne T)).flatten

/-- A one-row reference table. -/
def refDup : List RefRow := [{ key := "A", refData := 1 }]

/-- A transaction table holding two rows with the same key `A`. -/
def txDup : List TxRow := [{ key := "A", txData := 5 }, { key := "A", txData := 7 }]

/-- Counterexample to claim C5: a left join does not always return exactly
as many rows as the reference table — when a reference key matches two
transaction rows, both matches survive, so a 1-row reference table joins
into 2 rows. -/
theorem C5_counterexample :
    (leftJoin refDup txDup).length = 2 ∧ refDup.length = 1 ∧ (2 : Nat) ≠ 1 := by
  refine ⟨?_, by decide, by decide⟩
  norm_num [leftJoin, joinOne, refDup, txDup]

/-- Claim C5 as amended: the joined result has exactly as many rows as the
reference table provided every reference key matches at most one
transaction row; duplicate matching keys in the transaction table inflate
the row count. -/
theorem C5_left_join_row_count_amended (R : List RefRow) (T : List TxRow)
    (huniq : ∀ r ∈ R, (T.filter (fun t => decide (t.key = r.key))).length ≤ 1) :
    (leftJoin R T).length = R.length := by
  induction R with
  | nil => simp [leftJoin]
  | cons r rs ih =>
    have hr := huniq r (List.mem_cons_self r rs)
    have hrs : (leftJoin rs T).length = rs.length :=
      ih (fun x hx => huniq x (List.mem_cons_of_mem r hx))
    have hone : (joinOne T r).length = 1 := by
      unfold joinOne
      rcases hmatch : T.filter (fun t => decide (t.key = r.key)) with _ | ⟨m, ms⟩
      · rw [hmatch]
        rfl
      · rw [hmatch] at hr
        rw [hmatch]
        rcases ms with _ | ⟨m2, ms2⟩
        · simp
        · simp only [List.length_cons] at hr
          omega
    have hstep : leftJoin (r :: rs) T = joinOne T r ++ leftJoin rs T := by
      simp [leftJoin]
    rw [hstep, List.length_append, hone, hrs, List.length_cons, Nat.add_comm]

/-- Witness for C5's amended theorem: a two-row reference table against a
one-row transaction table, every key matching at most once. -/
theorem C5_left_join_row_count_amended_witness :
    (∀ r ∈ ([{ key := "A", refData := 1 }, { key := "B", refData := 2 }] :
        List RefRow),
      (([{ key := "A", txData := 5 }] : List TxRow).filter
        (fun t => decide (t.key = r.key))).length ≤ 1) ∧
    (leftJoin [{ key := "A", refData := 1 }, { key := "B", refData := 2 }]
      [{ key := "A", txData := 5 }]).length =
      ([{ key := "A", refData := 1 }, { key := "B", refData := 2 }] :
        List RefRow).length :=
  ⟨by decide,
    C5_left_join_row_count_amended
      [{ key := "A", refData := 1 }, { key := "B", refData := 2 }]
      [{ key := "A", txData := 5 }] (by decide)⟩

/-- A dataframe object on the Python heap: the loaded rows plus the
optional `Abs Diff` column (a parallel column list), which exists only
after the line-90 assignment. -/
structure DF where
  rows : List Row
  absDiffCol : Option (List PVal)
deriving DecidableEq

/-- The empty dataframe, used as the default for heap lookups. -/
def emptyDF : DF := { rows := [], absDiffCol := none }

/-- Boolean-mask filtering of a dataframe by category (line 34): every
column is filtered by the same mask.  pandas returns a new object. -/
def dfCategoryFilter (sel : String) (d : DF) : DF :=
  { rows := d.rows.filter (fun r => decide (r.category = sel))
    absDiffCol := d.absDiffCol.map (fun col =>
      ((d.rows.zip col).filter (fun p => decide (p.1.category = sel))).map
        (fun p => p.2)) }

/-- Line 90, `filtered_df[Abs Diff] = filtered_df[Diff Stock].abs()`: an
in-place column assignment on the dataframe object. -/
def dfAddAbsDiff (d : DF) : DF :=
  { rows := d.rows
    absDiffCol := some (d.rows.map (fun r => pvAbs r.diffStock)) }

/-- The Python variable environment relevant to the frame question: a heap
of dataframe objects with the addresses bound to `df` and `filtered_df`.
Distinct addresses mean distinct objects, so an in-place update through one
variable cannot touch the other. -/
structure Store where
  heap : List DF
  dfA : Nat
  fA : Nat

/-- Lines 24, 32-34 and 90 of the script as heap steps: load the base
table (one heap cell), bind `filtered_df` to a fresh copy of it
(`df.copy()` allocates), optionally rebind `filtered_df` to a freshly
allocated filtered dataframe, then mutate in place the object that
`filtered_df` points to by adding the `Abs Diff` column. -/
def runFilterStage (t : RawTable) (sel : String) : Store :=
  let base : DF := { rows := load_data t, absDiffCol := none }
  let s1 : Store := { heap := [base], dfA := 0, fA := 0 }
  let s2 : Store :=
    { heap := s1.heap ++ [s1.heap.getD s1.dfA emptyDF]
      dfA := s1.dfA
      fA := s1.heap.length }
  let s3 : Store :=
    if sel = "All" then s2
    else
      { heap := s2.heap ++ [dfCategoryFilter sel (s2.heap.getD s2.fA emptyDF)]
        dfA := s2.dfA
        fA := s2.heap.length }
  { heap := s3.heap.set s3.fA (dfAddAbsDiff (s3.heap.getD s3.fA emptyDF))
    dfA := s3.dfA
    fA := s3.fA }

/-- Claim C10: for every loaded table and every category selection, the
base table `df` keeps exactly its post-load rows and columns after the
filter and ranking stages — the in-place `Abs Diff` assignment lands on the
copy bound to `filtered_df`, never on the cached base object. -/
theorem C10_base_table_unchanged (t : RawTable) (sel : String) :
    (runFilterStage t sel).heap.getD (runFilterStage t sel).dfA emptyDF =
      { rows := load_data t, absDiffCol := none } ∧
    ((runFilterStage t sel).heap.getD (runFilterStage t sel).fA
        emptyDF).absDiffCol.isSome = true := by
  by_cases hall : sel = "All"
  · constructor
    · simp [runFilterStage, hall]
    · simp [runFilterStage, hall, dfAddAbsDiff]
  · constructor
    · simp [runFilterStage, hall]
    · simp [runFilterStage, hall, dfAddAbsDiff]

/-- Stable insertion of `a` into `l`: `a` goes in front of the first
element it compares `le` to, hence after every earlier element with an
equal key. -/
def sinsert (le : α → α → Bool) (a : α) : List α → List α
  | [] => [a]
  | b :: bs => if le a b then a :: b :: bs else b :: sinsert le a bs

/-- Stable insertion sort, the deterministic model of a stable ascending
argsort. -/
def isort (le : α → α → Bool) : List α → List α
  | [] => []
  | a :: as => sinsert le a (isort le as)

theorem sinsert_perm (le : α → α → Bool) (a : α) (l : List α) :
    List.Perm (sinsert le a l) (a :: l) := by
  induction l with
  | nil => exact List.Perm.refl _
  | cons b bs ih =>
    unfold sinsert
    by_cases h : le a b = true
    · rw [if_pos h]
    · rw [if_neg h]
      exact List.Perm.trans (List.Perm.cons b ih) (List.Perm.swap a b bs)

theorem isort_perm (le : α → α → Bool) (l : List α) :
    List.Perm (isort le l) l := by
  induction l with
  | nil => exact List.Perm.refl _
  | cons a as ih =>
    exact List.Perm.trans (sinsert_perm le a (isort le as)) (List.Perm.cons a ih)

theorem mem_isort {le : α → α → Bool} {l : List α} {a : α} :
    a ∈ isort le l ↔ a ∈ l :=
  (isort_perm le l).mem_iff

/-- The invariant a stable sort establishes: consecutive elements are in
`le` order, and tied elements (both comparisons true) keep ascending
original positions `ix`. -/
def SortR (le : α → α → Bool) (ix : α → Nat) (a b : α) : Prop :=
  le a b = true ∧ (le b a = true → ix a < ix b)

theorem sinsert_pairwise {le : α → α → Bool} {ix : α → Nat}
    (htot : ∀ a b, le a b = true ∨ le b a = true)
    (htrans : ∀ a b c, le a b = true → le b c = true → le a c = true)
    {a : α} {l : List α}
    (hins : ∀ b ∈ l, le a b = true → le b a = true → ix a < ix b)
    (hl : l.Pairwise (SortR le ix)) :
    (sinsert le a l).Pairwise (SortR le ix) := by
  induction l with
  | nil => simp [sinsert, List.Pairwise.nil]
  | cons b bs ih =>
    rcases List.pairwise_cons.mp hl with ⟨hb, hbs⟩
    unfold sinsert
    by_cases hab : le a b = true
    · rw [if_pos hab]
      refine List.pairwise_cons.mpr ⟨?_, hl⟩
      intro c hc
      rcases List.mem_cons.mp hc with rfl | hc
      · exact ⟨hab, fun hba => hins c (List.mem_cons_self c bs) hab hba⟩
      · have hbc := hb c hc
        have hac : le a c = true := htrans a b c hab hbc.1
        exact ⟨hac, fun hca => hins c (List.mem_cons_of_mem b hc) hac hca⟩
    · rw [if_neg hab]
      have hins' : ∀ c ∈ bs, le a c = true → le c a = true → ix a < ix c :=
        fun c hc => hins c (List.mem_cons_of_mem b hc)
      refine List.pairwise_cons.mpr ⟨?_, ih hins' hbs⟩
      intro c hc
      have hc' : c ∈ a :: bs := (sinsert_perm le a bs).subset hc
      rcases List.mem_cons.mp hc' with rfl | hc''
      · have hba : le b c = true := by
          rcases htot c b with h | h
          · exact absurd h hab
          · exact h
        exact ⟨hba, fun h => absurd h hab⟩
      · exact hb c hc''

theorem isort_pairwise {le : α → α → Bool} {ix : α → Nat}
    (htot : ∀ a b, le a b = true ∨ le b a = true)
    (htrans : ∀ a b c, le a b = true → le b c = true → le a c = true)
    {l : List α} (hix : l.Pairwise (fun a b => ix a < ix b)) :
    (isort le l).Pairwise (SortR le ix) := by
  induction l with
  | nil => simp [isort, List.Pairwise.nil]
  | cons a as ih =>
    rcases List.pairwise_cons.mp hix with ⟨ha, has⟩
    unfold isort
    refine sinsert_pairwise htot htrans ?_ (ih has)
    intro b hb _ _
    exact ha b (mem_isort.mp hb)

theorem pvLeB_total (x y : PVal) : pvLeB x y = true ∨ pvLeB y x = true := by
  cases x with
  | nan => left; rfl
  | num a =>
    cases y with
    | nan => right; rfl
    | num b =>
      rcases le_total a b with h | h
      · left; simpa [pvLeB] using h
      · right; simpa [pvLeB] using h

theorem pvLeB_trans (x y z : PVal) (h1 : pvLeB x y = true)
    (h2 : pvLeB y z = true) : pvLeB x z = true := by
  cases x with
  | nan => rfl
  | num a =>
    cases y with
    | nan => exact absurd h1 (by simp [pvLeB])
    | num b =>
      cases z with
      | nan => exact absurd h2 (by simp [pvLeB])
      | num c =>
        simp only [pvLeB, decide_eq_true_eq] at h1 h2 ⊢
        exact le_trans h1 h2

/-- pandas `sort_values(key, ascending=False)` as `nargsort` implements it
for a stable sort kind: the values and their index positions are both
reversed before the stable ascending argsort and the resulting indexer is
reversed once more, so the two reversals cancel on ties and rows with equal
keys keep their ORIGINAL input order, while rows with missing keys are
appended at the end in input order (`na_position` defaults to `last`).
Here that order is produced directly by a stable insertion sort under the
descending comparator (`pvLeB` puts `nan` below every number, hence last).
The script calls `sort_values` with the default `kind=quicksort`, which
promises only SOME descending order with no tie-order guarantee;
`IsSortValuesDesc` below captures exactly that weaker guarantee, and this
executable function is its stable-kind refinement. -/
def sort_values_desc (key : Row → PVal) (rows : List Row) : List Row :=
  isort (fun a b => pvLeB (key b) (key a)) rows

/-- Everything the script's `sort_values(..., ascending=False)` call
guarantees about its output under the default `kind=quicksort`: some
permutation of the input whose keys weakly decrease along the list (missing
keys compare below every number, hence necessarily come last).  The order
of rows with equal keys is NOT part of the guarantee. -/
def IsSortValuesDesc (key : Row → PVal) (rows out : List Row) : Prop :=
  List.Perm out rows ∧
  out.Pairwise (fun a b => pvLeB (key b) (key a) = true)

/-- Line 90: the `Abs Diff` helper column. -/
def absDiffKey (r : Row) : PVal := pvAbs r.diffStock

/-- Lines 90-91: sort by `Abs Diff` descending and take the first 30. -/
def top_30_qty (rows : List Row) : List Row :=
  (sort_values_desc absDiffKey rows).take 30

/-- Line 144: sort by signed `Diff Value` descending and take the first
30. -/
def top_30_value (rows : List Row) : List Row :=
  (sort_values_desc (fun r => r.diffValue) rows).take 30

/-- Line 196, `filtered_df.drop(top_30_qty.index.union(top_30_value.index))`:
keep the rows whose index label is in neither top-30 index set, preserving
order. -/
def remaining_df (rows : List Row) : List Row :=
  rows.filter (fun r =>
    decide (¬ (r.idx ∈ (top_30_qty rows).map (fun s => s.idx) ∨
      r.idx ∈ (top_30_value rows).map (fun s => s.idx))))

/-- Line 197's two-key comparator: category ascending, then `Diff Stock`
descending within a category. -/
def catDiffLe (a b : Row) : Bool :=
  if a.category = b.category then pvLeB b.diffStock a.diffStock
  else decide (a.category < b.category)

/-- Line 197, `remaining_df.sort_values([Category, Diff Stock],
ascending=[True, False])`: the displayed remainder listing.  pandas multi-key
sorts are lexsort-stable, modelled by the stable insertion sort. -/
def remaining_sorted (rows : List Row) : List Row :=
  isort catDiffLe (remaining_df rows)

theorem catDiffLe_total (a b : Row) :
    catDiffLe a b = true ∨ catDiffLe b a = true := by
  unfold catDiffLe
  by_cases h : a.category = b.category
  · rw [if_pos h, if_pos h.symm]
    exact pvLeB_total b.diffStock a.diffStock
  · rw [if_neg h, if_neg (fun hba => h hba.symm)]
    rcases lt_or_gt_of_ne h with hlt | hgt
    · left; simpa using hlt
    · right; simpa using hgt

theorem catDiffLe_trans (a b c : Row) (h1 : catDiffLe a b = true)
    (h2 : catDiffLe b c = true) : catDiffLe a c = true := by
  unfold catDiffLe at h1 h2 ⊢
  by_cases hab : a.category = b.category
  · rw [if_pos hab] at h1
    by_cases hbc : b.category = c.category
    · rw [if_pos hbc] at h2
      rw [if_pos (hab.trans hbc)]
      exact pvLeB_trans _ _ _ h2 h1
    · rw [if_neg hbc] at h2
      have hac : a.category ≠ c.category := hab ▸ hbc
      rw [if_neg hac]
      simp only [decide_eq_true_eq] at h2 ⊢
      exact hab ▸ h2
  · rw [if_neg hab] at h1
    simp only [decide_eq_true_eq] at h1
    by_cases hbc : b.category = c.category
    · have hac : a.category ≠ c.category := fun h => hab (h.trans hbc.symm)
      rw [if_neg hac]
      simp only [decide_eq_true_eq]
      exact hbc ▸ h1
    · rw [if_neg hbc] at h2
      simp only [decide_eq_true_eq] at h2
      have hlt : a.category < c.category := lt_trans h1 h2
      rw [if_neg (ne_of_lt hlt)]
      simpa using hlt

/-- The sorted output of `sort_values` is a permutation of its input, NaN
keys or not. -/
theorem sort_values_desc_perm (key : Row → PVal) (rows : List Row) :
    List.Perm (sort_values_desc key rows) rows :=
  isort_perm _ rows

/-- Stable insertion preserves a pairwise `le` bound, given totality and
transitivity of the comparator. -/
theorem sinsert_pairwise_le {le : α → α → Bool}
    (htot : ∀ a b, le a b = true ∨ le b a = true)
    (htrans : ∀ a b c, le a b = true → le b c = true → le a c = true)
    {a : α} {l : List α}
    (hl : l.Pairwise (fun x y => le x y = true)) :
    (sinsert le a l).Pairwise (fun x y => le x y = true) := by
  induction l with
  | nil => simp [sinsert, List.Pairwise.nil]
  | cons b bs ih =>
    rcases List.pairwise_cons.mp hl with ⟨hb, hbs⟩
    unfold sinsert
    by_cases hab : le a b = true
    · rw [if_pos hab]
      refine List.pairwise_cons.mpr ⟨?_, hl⟩
      intro c hc
      rcases List.mem_cons.mp hc with rfl | hc
      · exact hab
      · exact htrans a b c hab (hb c hc)
    · rw [if_neg hab]
      refine List.pairwise_cons.mpr ⟨?_, ih hbs⟩
      intro c hc
      have hc1 : c ∈ a :: bs := (sinsert_perm le a bs).subset hc
      rcases List.mem_cons.mp hc1 with rfl | hc2
      · rcases htot c b with h | h
        · exact absurd h hab
        · exact h
      · exact hb c hc2

/-- The stable insertion sort orders any total transitive comparator. -/
theorem isort_pairwise_le {le : α → α → Bool}
    (htot : ∀ a b, le a b = true ∨ le b a = true)
    (htrans : ∀ a b c, le a b = true → le b c = true → le a c = true)
    (l : List α) :
    (isort le l).Pairwise (fun x y => le x y = true) := by
  induction l with
  | nil => simp [isort, List.Pairwise.nil]
  | cons a as ih =>
    unfold isort
    exact sinsert_pairwise_le htot htrans ih

/-- The executable stable-kind sort is one of the descending orders the
code's `sort_values` call may emit. -/
theorem sort_values_desc_is (key : Row → PVal) (rows : List Row) :
    IsSortValuesDesc key rows (sort_values_desc key rows) :=
  ⟨isort_perm _ rows,
    isort_pairwise_le (fun a b => pvLeB_total (key b) (key a))
      (fun a b c h1 h2 => pvLeB_trans (key c) (key b) (key a) h2 h1) rows⟩

/-- Splitting a pairwise-ordered list at position `n`: everything kept
relates to everything dropped. -/
theorem take_dominates {R : α → α → Prop} {l : List α} {n : Nat}
    (hp : l.Pairwise R) : ∀ x ∈ l.take n, ∀ y ∈ l.drop n, R x y := by
  have hsplit : (l.take n ++ l.drop n).Pairwise R := by
    rw [List.take_append_drop]
    exact hp
  exact (List.pairwise_append.mp hsplit).2.2

/-- The tie-order-free top-30 properties, for every descending order the
sort may emit. -/
theorem top30_of_desc {key : Row → PVal} {rows out : List Row}
    (hlen : 30 ≤ rows.length) (h : IsSortValuesDesc key rows out) :
    (out.take 30).length = 30 ∧
    (out.take 30).Pairwise (fun a b => pvLeB (key b) (key a) = true) ∧
    (∀ x ∈ out.take 30, ∀ y ∈ rows, y ∉ out.take 30 →
      pvLeB (key y) (key x) = true) := by
  obtain ⟨hperm, hpw⟩ := h
  refine ⟨?_, hpw.sublist (List.take_sublist _ _), ?_⟩
  · rw [List.length_take, hperm.length_eq]
    exact Nat.min_eq_left hlen
  · intro x hx y hy hyn
    have hy1 : y ∈ out := hperm.mem_iff.mpr hy
    have hy2 : y ∈ out.take 30 ∨ y ∈ out.drop 30 := by
      rw [← List.mem_append, List.take_append_drop]
      exact hy1
    rcases hy2 with h | h
    · exact absurd h hyn
    · exact take_dominates hpw x hx y h

/-- Claim C2 as amended: for every filtered table with at least 30 rows,
every descending order the code's sort may emit yields, after `head(30)`,
a listing of exactly 30 rows whose keys weakly decrease and are each at
least every excluded row's key — and the executable stable-kind listings
`top_30_qty` and `top_30_value` satisfy the same; the order of rows with
equal keys is unspecified (the script sorts with the default
`kind=quicksort`, which is not stable), so no tie-break is asserted. -/
theorem C2_top30_amended (rows : List Row) (hlen : 30 ≤ rows.length) :
    (∀ out, IsSortValuesDesc absDiffKey rows out →
      (out.take 30).length = 30 ∧
      (out.take 30).Pairwise
        (fun a b => pvLeB (absDiffKey b) (absDiffKey a) = true) ∧
      (∀ x ∈ out.take 30, ∀ y ∈ rows, y ∉ out.take 30 →
        pvLeB (absDiffKey y) (absDiffKey x) = true)) ∧
    (∀ out, IsSortValuesDesc (fun r => r.diffValue) rows out →
      (out.take 30).length = 30 ∧
      (out.take 30).Pairwise
        (fun a b => pvLeB b.diffValue a.diffValue = true) ∧
      (∀ x ∈ out.take 30, ∀ y ∈ rows, y ∉ out.take 30 →
        pvLeB y.diffValue x.diffValue = true)) ∧
    (top_30_qty rows).length = 30 ∧
    (top_30_qty rows).Pairwise
      (fun a b => pvLeB (absDiffKey b) (absDiffKey a) = true) ∧
    (∀ x ∈ top_30_qty rows, ∀ y ∈ rows, y ∉ top_30_qty rows →
      pvLeB (absDiffKey y) (absDiffKey x) = true) ∧
    (top_30_value rows).length = 30 ∧
    (top_30_value rows).Pairwise
      (fun a b => pvLeB b.diffValue a.diffValue = true) ∧
    (∀ x ∈ top_30_value rows, ∀ y ∈ rows, y ∉ top_30_value rows →
      pvLeB y.diffValue x.diffValue = true) := by
  obtain ⟨hq1, hq2, hq3⟩ :=
    top30_of_desc hlen (sort_values_desc_is absDiffKey rows)
  obtain ⟨hv1, hv2, hv3⟩ :=
    top30_of_desc hlen (sort_values_desc_is (fun r => r.diffValue) rows)
  exact ⟨fun out h => top30_of_desc hlen h, fun out h => top30_of_desc hlen h,
    hq1, hq2, hq3, hv1, hv2, hv3⟩

/-- A row whose absolute stock difference ties with every other: all keys
equal 1, only the index label differs. -/
def tieRow (i : Nat) : Row :=
  { idx := i, itemName := "I", itemNo := "N", barcode := "B", category := "X"
    bookStock := PVal.num 0, physStock := PVal.num 1, costPrice := PVal.num 1
    diffStock := PVal.num 1, bookValue := PVal.num 0, physValue := PVal.num 1
    diffValue := PVal.num 1 }

/-- `k` tie rows with consecutive index labels starting at `i`. -/
def tieRowsFrom : Nat → Nat → List Row
  | _, 0 => []
  | i, k + 1 => tieRow i :: tieRowsFrom (i + 1) k

/-- 31 rows whose sort keys all tie. -/
def tieRows : List Row := tieRowsFrom 0 31

theorem tieRowsFrom_key (i k : Nat) :
    ∀ r ∈ tieRowsFrom i k, absDiffKey r = PVal.num 1 := by
  induction k generalizing i with
  | zero => intro r h; cases h
  | succ k ih =>
    intro r h
    rcases List.mem_cons.mp h with rfl | h1
    · show pvAbs (PVal.num 1) = PVal.num 1
      simp [pvAbs, abs_one]
    · exact ih (i + 1) r h1

/-- Counterexample to claim C2: the claimed tie-break is not among the
code's guarantees.  `variance.py` sorts with the default `kind=quicksort`,
which promises a descending order but no tie order; on 31 rows whose
absolute stock differences all tie, the fully reversed input satisfies
everything the sort guarantees (`IsSortValuesDesc`), yet the first 30 rows
of that admissible order violate the claimed original-input-order
tie-break — its head pair has index labels 30 then 29, not 0 then 1. -/
theorem C2_counterexample :
    IsSortValuesDesc absDiffKey tieRows tieRows.reverse ∧
    ¬ ((tieRows.reverse.take 30).Pairwise
        (fun a b => absDiffKey a = absDiffKey b → a.idx < b.idx)) := by
  constructor
  · refine ⟨List.reverse_perm tieRows, ?_⟩
    apply List.pairwise_of_forall_mem_list
    intro a ha b hb
    rw [tieRowsFrom_key 0 31 a (List.mem_reverse.mp ha),
      tieRowsFrom_key 0 31 b (List.mem_reverse.mp hb)]
    simp [pvLeB]
  · intro h
    obtain ⟨rest, he⟩ :
        ∃ rest, tieRows.reverse.take 30 = tieRow 30 :: tieRow 29 :: rest :=
      ⟨_, rfl⟩
    rw [he] at h
    have h2 := (List.pairwise_cons.mp h).1 (tieRow 29)
      (List.mem_cons_self _ _)
    have h3 : absDiffKey (tieRow 30) = absDiffKey (tieRow 29) := rfl
    have h4 := h2 h3
    exact absurd h4 (by decide)

/-- Witness for C2's amended theorem at the 31 concrete tie rows. -/
theorem C2_top30_amended_witness :
    30 ≤ tieRows.length ∧
    ((∀ out, IsSortValuesDesc absDiffKey tieRows out →
      (out.take 30).length = 30 ∧
      (out.take 30).Pairwise
        (fun a b => pvLeB (absDiffKey b) (absDiffKey a) = true) ∧
      (∀ x ∈ out.take 30, ∀ y ∈ tieRows, y ∉ out.take 30 →
        pvLeB (absDiffKey y) (absDiffKey x) = true)) ∧
    (∀ out, IsSortValuesDesc (fun r => r.diffValue) tieRows out →
      (out.take 30).length = 30 ∧
      (out.take 30).Pairwise
        (fun a b => pvLeB b.diffValue a.diffValue = true) ∧
      (∀ x ∈ out.take 30, ∀ y ∈ tieRows, y ∉ out.take 30 →
        pvLeB y.diffValue x.diffValue = true)) ∧
    (top_30_qty tieRows).length = 30 ∧
    (top_30_qty tieRows).Pairwise
      (fun a b => pvLeB (absDiffKey b) (absDiffKey a) = true) ∧
    (∀ x ∈ top_30_qty tieRows, ∀ y ∈ tieRows, y ∉ top_30_qty tieRows →
      pvLeB (absDiffKey y) (absDiffKey x) = true) ∧
    (top_30_value tieRows).length = 30 ∧
    (top_30_value tieRows).Pairwise
      (fun a b => pvLeB b.diffValue a.diffValue = true) ∧
    (∀ x ∈ top_30_value tieRows, ∀ y ∈ tieRows, y ∉ top_30_value tieRows →
      pvLeB y.diffValue x.diffValue = true)) :=
  ⟨by decide, C2_top30_amended tieRows (by decide)⟩

theorem loadRows_idx_ge (hd : Bool) (i : Nat) (l : List RawRow) :
    ∀ r ∈ loadRows hd i l, i ≤ r.idx := by
  induction l generalizing i with
  | nil => intro r h; cases h
  | cons a as ih =>
    intro r h
    rcases List.mem_cons.mp h with rfl | h'
    · exact Nat.le_refl _
    · exact Nat.le_trans (Nat.le_succ i) (ih (i + 1) r h')

/-- The loaded dataframe carries strictly increasing index labels (the
pandas `RangeIndex`). -/
theorem loadRows_idx_pairwise (hd : Bool) (i : Nat) (l : List RawRow) :
    (loadRows hd i l).Pairwise (fun a b => a.idx < b.idx) := by
  induction l generalizing i with
  | nil => exact List.Pairwise.nil
  | cons a as ih =>
    refine List.pairwise_cons.mpr ⟨?_, ih (i + 1)⟩
    intro b hb
    have h := loadRows_idx_ge hd (i + 1) as b hb
    have hidx : (loadRow hd i a).idx = i := rfl
    omega

theorem load_idx_pairwise (t : RawTable) :
    (load_data t).Pairwise (fun a b => a.idx < b.idx) :=
  loadRows_idx_pairwise t.hasDiff 0 t.rows

/-- Filtering preserves the strictly increasing index labels. -/
theorem filtered_idx_pairwise (t : RawTable) (sel : String) :
    (filtered_df (load_data t) sel).Pairwise (fun a b => a.idx < b.idx) := by
  unfold filtered_df
  split
  · exact load_idx_pairwise t
  · exact (load_idx_pairwise t).sublist (List.filter_sublist _)

theorem idx_pairwise_nodup {rows : List Row}
    (hix : rows.Pairwise (fun a b => a.idx < b.idx)) : rows.Nodup :=
  hix.imp (fun h he => absurd (he ▸ h) (lt_irrefl _))

/-- Rows of an index-sorted table are determined by their index label. -/
theorem idx_inj {rows : List Row}
    (hix : rows.Pairwise (fun a b => a.idx < b.idx)) :
    ∀ a ∈ rows, ∀ b ∈ rows, a.idx = b.idx → a = b := by
  induction rows with
  | nil => intro a ha; cases ha
  | cons c cs ih =>
    rcases List.pairwise_cons.mp hix with ⟨hc, hcs⟩
    intro a ha b hb he
    rcases List.mem_cons.mp ha with rfl | ha'
    · rcases List.mem_cons.mp hb with rfl | hb'
      · rfl
      · exact absurd he (Nat.ne_of_lt (hc b hb'))
    · rcases List.mem_cons.mp hb with rfl | hb'
      · exact absurd he (Ne.symm (Nat.ne_of_lt (hc a ha')))
      · exact ih hcs a ha' b hb' he

/-- Dropping by index labels is dropping by rows, on an index-sorted
table. -/
theorem mem_of_idx_mem {rows sub : List Row}
    (hix : rows.Pairwise (fun a b => a.idx < b.idx))
    (hsub : ∀ s ∈ sub, s ∈ rows)
    {r : Row} (hr : r ∈ rows)
    (hidx : r.idx ∈ sub.map (fun s => s.idx)) : r ∈ sub := by
  rcases List.mem_map.mp hidx with ⟨s, hs, he⟩
  have hsr : s = r := idx_inj hix s (hsub s hs) r hr he
  exact hsr ▸ hs

theorem top_30_qty_subset (rows : List Row) :
    ∀ x ∈ top_30_qty rows, x ∈ rows := fun x hx =>
  (sort_values_desc_perm absDiffKey rows).mem_iff.mp (List.mem_of_mem_take hx)

theorem top_30_value_subset (rows : List Row) :
    ∀ x ∈ top_30_value rows, x ∈ rows := fun x hx =>
  (sort_values_desc_perm (fun r => r.diffValue) rows).mem_iff.mp
    (List.mem_of_mem_take hx)

/-- Everything claim C3 asserts, over any index-sorted table. -/
theorem remainder_spec {rows : List Row}
    (hix : rows.Pairwise (fun a b => a.idx < b.idx)) :
    (∀ r, r ∈ remaining_sorted rows ↔
      (r ∈ rows ∧ r ∉ top_30_qty rows ∧ r ∉ top_30_value rows)) ∧
    (remaining_sorted rows).Pairwise (fun a b =>
      a.category < b.category ∨
        (a.category = b.category ∧ pvLeB b.diffStock a.diffStock = true)) ∧
    (∀ r, r ∈ rows ↔
      (r ∈ remaining_sorted rows ∨ r ∈ top_30_qty rows ∨
        r ∈ top_30_value rows)) ∧
    (remaining_sorted rows).Nodup ∧
    (top_30_qty rows).Nodup ∧ (top_30_value rows).Nodup := by
  have hqsub := top_30_qty_subset rows
  have hvsub := top_30_value_subset rows
  have hchar : ∀ r, r ∈ remaining_sorted rows ↔
      (r ∈ rows ∧ r ∉ top_30_qty rows ∧ r ∉ top_30_value rows) := by
    intro r
    have h1 : r ∈ remaining_sorted rows ↔ r ∈ remaining_df rows := mem_isort
    have h2 : r ∈ remaining_df rows ↔
        r ∈ rows ∧ ¬(r.idx ∈ (top_30_qty rows).map (fun s => s.idx) ∨
          r.idx ∈ (top_30_value rows).map (fun s => s.idx)) := by
      unfold remaining_df
      rw [List.mem_filter]
      simp only [decide_eq_true_eq]
    rw [h1, h2]
    constructor
    · rintro ⟨hr, hni⟩
      refine ⟨hr, ?_, ?_⟩
      · intro hq; exact hni (Or.inl (List.mem_map_of_mem _ hq))
      · intro hv; exact hni (Or.inr (List.mem_map_of_mem _ hv))
    · rintro ⟨hr, hq, hv⟩
      refine ⟨hr, ?_⟩
      rintro (hiq | hiv)
      · exact hq (mem_of_idx_mem hix hqsub hr hiq)
      · exact hv (mem_of_idx_mem hix hvsub hr hiv)
  have hdfix : (remaining_df rows).Pairwise (fun a b => a.idx < b.idx) :=
    hix.sublist (List.filter_sublist _)
  have hsorted : (remaining_sorted rows).Pairwise (fun a b =>
      a.category < b.category ∨
        (a.category = b.category ∧ pvLeB b.diffStock a.diffStock = true)) := by
    have h := @isort_pairwise Row catDiffLe (fun r => r.idx)
      catDiffLe_total catDiffLe_trans (remaining_df rows) hdfix
    refine h.imp ?_
    intro a b hab
    have h1 := hab.1
    unfold catDiffLe at h1
    by_cases hc : a.category = b.category
    · rw [if_pos hc] at h1
      exact Or.inr ⟨hc, h1⟩
    · rw [if_neg hc] at h1
      simp only [decide_eq_true_eq] at h1
      exact Or.inl h1
  have hnd : rows.Nodup := idx_pairwise_nodup hix
  have hndq : (top_30_qty rows).Nodup :=
    ((sort_values_desc_perm absDiffKey rows).symm.nodup hnd).sublist
      (List.take_sublist _ _)
  have hndv : (top_30_value rows).Nodup :=
    ((sort_values_desc_perm (fun r => r.diffValue) rows).symm.nodup hnd).sublist
      (List.take_sublist _ _)
  have hnddf : (remaining_df rows).Nodup :=
    hnd.sublist (List.filter_sublist _)
  have hnds : (remaining_sorted rows).Nodup :=
    (isort_perm catDiffLe (remaining_df rows)).symm.nodup hnddf
  refine ⟨hchar, hsorted, ?_, hnds, hndq, hndv⟩
  intro r
  constructor
  · intro hr
    by_cases hq : r ∈ top_30_qty rows
    · exact Or.inr (Or.inl hq)
    · by_cases hv : r ∈ top_30_value rows
      · exact Or.inr (Or.inr hv)
      · exact Or.inl ((hchar r).mpr ⟨hr, hq, hv⟩)
  · rintro (h | h | h)
    · exact ((hchar r).mp h).1
    · exact hqsub r h
    · exact hvsub r h

/-- Claim C3: for every filtered table, the remainder listing is exactly
the complement of the union of the two top-30 sets, it is sorted by
category ascending then stock difference descending, the three listings
together cover the filtered set exactly, and each listing is
duplicate-free. -/
theorem C3_remainder_partition (t : RawTable) (sel : String) :
    (∀ r, r ∈ remaining_sorted (filtered_df (load_data t) sel) ↔
      (r ∈ filtered_df (load_data t) sel ∧
        r ∉ top_30_qty (filtered_df (load_data t) sel) ∧
        r ∉ top_30_value (filtered_df (load_data t) sel))) ∧
    (remaining_sorted (filtered_df (load_data t) sel)).Pairwise (fun a b =>
      a.category < b.category ∨
        (a.category = b.category ∧ pvLeB b.diffStock a.diffStock = true)) ∧
    (∀ r, r ∈ filtered_df (load_data t) sel ↔
      (r ∈ remaining_sorted (filtered_df (load_data t) sel) ∨
        r ∈ top_30_qty (filtered_df (load_data t) sel) ∨
        r ∈ top_30_value (filtered_df (load_data t) sel))) ∧
    (remaining_sorted (filtered_df (load_data t) sel)).Nodup ∧
    (top_30_qty (filtered_df (load_data t) sel)).Nodup ∧
    (top_30_value (filtered_df (load_data t) sel)).Nodup :=
  remainder_spec (filtered_idx_pairwise t sel)
